import Mathlib

/-!
Shallow embedding of `src/simpleperf/record_file_reader.cpp` (the perf.data
record file reader) and proofs about its behaviour.

The mapped file is modelled as a `List Nat` of byte values; reading a scalar
past the end of the list yields 0 (the C code would read whatever bytes the
mapping holds there; none of the theorems depend on the value of such bytes).
Machine integers are modelled as `Nat`: all quantities involved (section
offsets, sizes, u16 record lengths, u64 ids and timestamps) are read from
bytes and hence already reduced, so no overflow arithmetic arises.
The external decoder `ReadRecordFromBuffer` (declared in record.h, outside
this translation unit) is a parameter of the embedding, as are the
reinterpret-casts of attribute payloads.
-/

namespace RecordFile

/-- Little-endian 16-bit read at `pos`, as in reinterpreting two mapped bytes.
Bytes are normalised modulo 256 so that arbitrary `List Nat` inputs behave
like byte buffers. -/
def readU16LE (bytes : List Nat) (pos : Nat) : Nat :=
  bytes.getD pos 0 % 256 + (bytes.getD (pos + 1) 0 % 256) * 256

/-- Little-endian 32-bit read at `pos`. -/
def readU32LE (bytes : List Nat) (pos : Nat) : Nat :=
  readU16LE bytes pos + readU16LE bytes (pos + 2) * 2 ^ 16

/-- Little-endian 64-bit read at `pos`. -/
def readU64LE (bytes : List Nat) (pos : Nat) : Nat :=
  readU32LE bytes pos + readU32LE bytes (pos + 4) * 2 ^ 32

/-- PerfFileFormat::SectionDesc — a (offset, size) pair locating a region of
the file. -/
structure SectionDesc where
  offset : Nat
  size : Nat
deriving DecidableEq, Repr

/-- The fixed file header fields used by the reader: `attr_size`, the `attrs`
and `data` section descriptors, and the feature bitmap byte array
(`header->features`, a fixed-size `unsigned char` array modelled as a list of
bytes). -/
structure FileHeader where
  attr_size : Nat
  attrs : SectionDesc
  data : SectionDesc
  features : List Nat
deriving DecidableEq, Repr

/-- The two fields of `perf_event_attr` that `DataSection` consults:
`sample_type` (a bit mask) and the `sample_id_all` bit. The rest of the
attribute payload is opaque to this translation unit. -/
structure PerfEventAttr where
  sample_type : Nat
  sample_id_all : Bool
deriving DecidableEq, Repr

/-- PerfFileFormat::FileAttr — an opaque event attribute plus the `ids`
section descriptor locating that attribute's array of 8-byte ids. -/
structure FileAttr where
  attr : PerfEventAttr
  ids : SectionDesc
deriving DecidableEq, Repr

/-- PERF_RECORD_SAMPLE from the perf_event ABI. -/
def PERF_RECORD_SAMPLE : Nat := 9

/-- PERF_SAMPLE_TIME (1 << 2) from the perf_event ABI. -/
def PERF_SAMPLE_TIME : Nat := 4

/-- The decoded record type as seen by `IsRecordHappensBefore`: its
`header.type` tag, the `time_data.time` field of its sample payload (used
when the record is a sample), and the `sample_id.time_data.time` field of
its trailing sample_id suffix (used otherwise). -/
structure Record where
  type : Nat
  sampleTime : Nat
  sampleIdTime : Nat
deriving DecidableEq, Repr

/-- The timestamp `IsRecordHappensBefore` extracts from a record: the sample
payload's time for sample records, the sample_id suffix's time otherwise. -/
def recordTime (r : Record) : Nat :=
  if r.type = PERF_RECORD_SAMPLE then r.sampleTime else r.sampleIdTime

/-- Translation of the static comparator `IsRecordHappensBefore`
(record_file_reader.cpp lines 113–132). -/
def IsRecordHappensBefore (r1 r2 : Record) : Bool :=
  let is_r1_sample : Bool := r1.type = PERF_RECORD_SAMPLE
  let is_r2_sample : Bool := r2.type = PERF_RECORD_SAMPLE
  let time1 := if is_r1_sample then r1.sampleTime else r1.sampleIdTime
  let time2 := if is_r2_sample then r2.sampleTime else r2.sampleIdTime
  if time1 ≠ time2 then
    decide (time1 < time2)
  else if is_r1_sample ≠ is_r2_sample then
    if is_r1_sample then false else true
  else
    false

/-- Error outcome of a failed CHECK / CHECK_LE: the spec's structural
FormatError. -/
inductive FErr where
  | formatError : FErr
deriving DecidableEq, Repr

/-- Translation of `RecordFileReader::AttrSection`: `attrs.size / attr_size`
fixed-stride entries starting at `mmap_addr_ + attrs.offset`. The
reinterpret-cast of each entry's bytes to a `FileAttr` is the external
parameter `parseAttr` (layout of `FileAttr` is declared in record_file.h,
outside this translation unit); entry `i` starts at
`attrs.offset + i * attr_size`. -/
def AttrSection (header : FileHeader) (parseAttr : Nat → FileAttr) : List FileAttr :=
  (List.range (header.attrs.size / header.attr_size)).map
    (fun i => parseAttr (header.attrs.offset + i * header.attr_size))

/-- Translation of `RecordFileReader::IdsForAttr`: push `ids.size / 8`
consecutive 64-bit values read from an advancing pointer starting at
`mmap_addr_ + ids.offset`. -/
def idsLoop (bytes : List Nat) : Nat → Nat → List Nat
  | 0, _ => []
  | n + 1, p => readU64LE bytes p :: idsLoop bytes n (p + 8)

/-- `RecordFileReader::IdsForAttr` (record_file_reader.cpp lines 103–111). -/
def IdsForAttr (bytes : List Nat) (attr : FileAttr) : List Nat :=
  idsLoop bytes (attr.ids.size / 8) attr.ids.offset

/-- The record-walking loop of `RecordFileReader::DataSection` (lines
141–149): while `p < end`, read the record header's `size` field (a u16 at
byte offset 6 of the perf_event_header, per the perf_event ABI: u32 type,
u16 misc, u16 size), append `decode p` if `p + size ≤ end`, and advance `p`
by `size` in either case. The C loop has no termination guarantee (a zero
`size` loops forever), so the embedding is fuel-indexed: `none` means the
fuel ran out before the loop exited. -/
def dataWalk (bytes : List Nat) (decode : Nat → α) (endPos : Nat) :
    Nat → Nat → Option (List α)
  | 0, pos => if pos < endPos then none else some []
  | fuel + 1, pos =>
    if pos < endPos then
      let size := readU16LE bytes (pos + 6)
      match dataWalk bytes decode endPos fuel (pos + size) with
      | none => none
      | some l => some (if pos + size ≤ endPos then decode pos :: l else l)
    else some []

/-- The ordering pass of `DataSection` (lines 150–152): when the first
attribute has PERF_SAMPLE_TIME set and sample_id_all, `std::sort` the
materialized records with `IsRecordHappensBefore`. `std::sort`'s contract
only fixes the output up to the comparator (it is not stable); the embedding
realises it with `mergeSort` under the comparator's induced total preorder,
one permutation satisfying that contract. -/
def dataSectionOrder (attr : PerfEventAttr) (records : List Record) : List Record :=
  if attr.sample_type &&& PERF_SAMPLE_TIME ≠ 0 ∧ attr.sample_id_all then
    records.mergeSort (fun r1 r2 => ! IsRecordHappensBefore r2 r1)
  else records

/-- `RecordFileReader::DataSection` (lines 134–154): `CHECK` that the
attribute table is non-empty (a failed CHECK is the spec's fatal
FormatError), take the first attribute, walk the data region collecting
decodable records, then apply the ordering pass. `decode` stands for the
external `ReadRecordFromBuffer`, applied to the first attribute and the
record's start offset. `none` means the walk did not exit within `fuel`
iterations. -/
def DataSection (bytes : List Nat) (header : FileHeader) (parseAttr : Nat → FileAttr)
    (decode : PerfEventAttr → Nat → Record) (fuel : Nat) :
    Option (Except FErr (List Record)) :=
  match AttrSection header parseAttr with
  | [] => some (.error .formatError)
  | fa :: _ =>
    match dataWalk bytes (decode fa.attr) (header.data.offset + header.data.size)
        fuel header.data.offset with
    | none => none
    | some records => some (.ok (dataSectionOrder fa.attr records))

/-- The feature-bitmap scan of `FeatureSectionDescriptors` (lines 160–166):
for each byte index `i` and bit `j` in 0..7, in increasing (i, j) order, a
set bit `features[i] & (1 << j)` contributes feature id `i * 8 + j`. -/
def featureBitsLoop : List Nat → Nat → List Nat
  | [], _ => []
  | b :: rest, i =>
    ((List.range 8).filterMap fun j =>
      if b &&& (1 <<< j) ≠ 0 then some (i * 8 + j) else none) ++
    featureBitsLoop rest (i + 1)

/-- The ordered list of feature ids discovered from the header bitmap. -/
def featureIds (features : List Nat) : List Nat :=
  featureBitsLoop features 0

/-- Modelled from the spec: the on-disk layout of a SectionDesc entry —
`{offset: u64, size: u64}` (spec section 6), 16 bytes per entry — whose
struct declaration lives in record_file.h, outside this translation unit. -/
def readSectionDesc (bytes : List Nat) (pos : Nat) : SectionDesc :=
  ⟨readU64LE bytes pos, readU64LE bytes (pos + 8)⟩

/-- The descriptor-association loop of `FeatureSectionDescriptors` (lines
167–172): starting at `data.offset + data.size`, read one SectionDesc per
discovered feature id, advancing the pointer one entry (16 bytes) at a
time, inserting `(feature, desc)` pairs. -/
def featureDescLoop (bytes : List Nat) : List Nat → Nat → List (Nat × SectionDesc)
  | [], _ => []
  | f :: rest, pos => (f, readSectionDesc bytes pos) :: featureDescLoop bytes rest (pos + 16)

/-- `RecordFileReader::FeatureSectionDescriptors` (lines 156–175). The
`std::map<int, SectionDesc>` is modelled as the association list of inserted
pairs; the discovered ids are strictly increasing, so the list is already in
the map's key order and `List.lookup` is the map's `find`. -/
def FeatureSectionDescriptors (bytes : List Nat) (header : FileHeader) :
    List (Nat × SectionDesc) :=
  featureDescLoop bytes (featureIds header.features) (header.data.offset + header.data.size)

/-- Modelled from the spec: the command-line feature id constant
FEAT_CMDLINE, declared in record_file.h outside this translation unit (the
perf file format's HEADER_CMDLINE slot). None of the theorems depend on its
numeric value. -/
def FEAT_CMDLINE : Nat := 11

/-- A `std::string` constructed from a `char*` at `pos`: the bytes up to the
first NUL terminator. -/
def cStringAt (bytes : List Nat) (pos : Nat) : List Nat :=
  (bytes.drop pos).takeWhile (fun b => b != 0)

/-- The per-argument loop of `ReadCmdlineFeature` (lines 190–196): read a
u32 `len`, `CHECK_LE(p + len, end)` (a failed CHECK is the spec's
FormatError), push the string at `p`, advance `p` by `len`. -/
def cmdlineLoop (bytes : List Nat) : Nat → Nat → Nat → Except FErr (List (List Nat))
  | _, _, 0 => .ok []
  | p, endPos, count + 1 =>
    let len := readU32LE bytes p
    if p + 4 + len ≤ endPos then
      match cmdlineLoop bytes (p + 4 + len) endPos count with
      | .error e => .error e
      | .ok rest => .ok (cStringAt bytes (p + 4) :: rest)
    else .error .formatError

/-- `RecordFileReader::ReadCmdlineFeature` (lines 177–198): look up
FEAT_CMDLINE in the feature-section map, returning an empty list if absent;
otherwise read the u32 argument count (then `CHECK_LE(p, end)`) and run the
per-argument loop for exactly that many iterations. -/
def ReadCmdlineFeature (bytes : List Nat) (sections : List (Nat × SectionDesc)) :
    Except FErr (List (List Nat)) :=
  match sections.lookup FEAT_CMDLINE with
  | none => .ok []
  | some sec =>
    let p := sec.offset
    let endPos := sec.offset + sec.size
    let argCount := readU32LE bytes p
    if p + 4 ≤ endPos then cmdlineLoop bytes (p + 4) endPos argCount
    else .error .formatError

/-- Bounds projection of `cmdlineLoop`: every (u32 length, argument bytes)
read stays within the section's end. `cmdlineLoop` succeeds exactly when
this holds (proved below); note no constraint relates the final cursor to
`endPos`. -/
def cmdlineFits (bytes : List Nat) : Nat → Nat → Nat → Bool
  | _, _, 0 => true
  | p, endPos, count + 1 =>
    decide (p + 4 + readU32LE bytes p ≤ endPos) &&
    cmdlineFits bytes (p + 4 + readU32LE bytes p) endPos count

/-- Numeric key realising `IsRecordHappensBefore` as a strict total preorder:
records compare by timestamp first, and at equal timestamps a non-sample
record keys below a sample record. -/
def rkey (r : Record) : Nat :=
  2 * recordTime r + (if r.type = PERF_RECORD_SAMPLE then 1 else 0)

/-- The cursor positions visited by the record-walking loop when the record
at `start` declares size `s₀`, the next one `s₁`, and so on. -/
def recStarts (start : Nat) : List Nat → List Nat
  | [] => []
  | s :: rest => start :: recStarts (start + s) rest

/-- A chain of records in the data region, each declaring a positive length
read from its header's size field and fitting before `endPos`. -/
def fitsChain (bytes : List Nat) (endPos : Nat) : Nat → List Nat → Bool
  | _, [] => true
  | pos, s :: rest =>
    decide (readU16LE bytes (pos + 6) = s) && decide (0 < s) &&
    decide (pos + s ≤ endPos) && fitsChain bytes endPos (pos + s) rest

/-! ### Lifecycle model (CreateInstance / MmapFile / Close / destructor)

The open/mmap/munmap/close system calls are modelled by an environment
recording each call's outcome, and the reader object by the three member
fields the source manipulates (`record_fd_`, whether `mmap_addr_` is set,
`mmap_len_`). The observable effect tracked is the list of system calls a
code path issues. -/

/-- Outcomes the environment assigns to the system calls a reader may make:
`lseekResult = none` models `lseek` returning -1, `mmapOk = false` models
`mmap` returning MAP_FAILED, and `munmapOk` / `closeOk` the success of the
teardown calls. -/
structure SysEnv where
  lseekResult : Option Nat
  mmapOk : Bool
  munmapOk : Bool
  closeOk : Bool
deriving DecidableEq, Repr

/-- The member fields of RecordFileReader that the lifecycle code touches. -/
structure ReaderState where
  record_fd : Int
  mmap_mapped : Bool
  mmap_len : Nat
deriving DecidableEq, Repr

/-- An observable resource-releasing system call issued by the reader. -/
inductive SysCall where
  | munmapCall : SysCall
  | closeCall : Int → SysCall
deriving DecidableEq, Repr

/-- The private constructor `RecordFileReader(filename, fd)` (lines 47–49):
stores the descriptor, null mapping, zero length. -/
def mkReader (fd : Int) : ReaderState :=
  ⟨fd, false, 0⟩

/-- `RecordFileReader::Close` (lines 57–69): munmap, then close, logging on
failure of either; `record_fd_` is set to -1 unconditionally; the returned
Bool is false when either call failed. Also returns the system calls
issued. -/
def CloseReader (env : SysEnv) (r : ReaderState) : ReaderState × Bool × List SysCall :=
  ({ r with record_fd := -1 }, env.munmapOk && env.closeOk,
   [SysCall.munmapCall, SysCall.closeCall r.record_fd])

/-- `RecordFileReader::~RecordFileReader` (lines 51–55): call `Close` only
when `record_fd_ != -1`. Returns the system calls issued. -/
def destructReader (env : SysEnv) (r : ReaderState) : List SysCall :=
  if r.record_fd ≠ -1 then (CloseReader env r).2.2 else []

/-- `RecordFileReader::MmapFile` (lines 71–86): lseek to find the size (fail
on -1), mmap read-only (fail on MAP_FAILED), then record address and
length. -/
def MmapFile (env : SysEnv) (r : ReaderState) : Option ReaderState :=
  match env.lseekResult with
  | none => none
  | some fileSize =>
    if env.mmapOk then some { r with mmap_mapped := true, mmap_len := fileSize }
    else none

/-- Result of `CreateInstance`: the reader handed to the caller (if any) and
the resource-releasing system calls made before returning. -/
structure CreateResult where
  reader : Option ReaderState
  calls : List SysCall
deriving DecidableEq, Repr

/-- `RecordFileReader::CreateInstance` (lines 34–45): `openResult` is the
outcome of `open(filename)` (`none` = -1). On open failure, return nullptr
with nothing to release. Otherwise construct the reader in a `unique_ptr`
and run `MmapFile`; on its failure the early `return nullptr` destroys the
`unique_ptr`, running the destructor (hence `Close`) on the partially
constructed reader before `CreateInstance` returns. -/
def CreateInstance (env : SysEnv) (openResult : Option Int) : CreateResult :=
  match openResult with
  | none => ⟨none, []⟩
  | some fd =>
    let r := mkReader fd
    match MmapFile env r with
    | none => ⟨none, destructReader env r⟩
    | some mapped => ⟨some mapped, []⟩

/-! ## Theorems -/

theorem idsLoop_length (bytes : List Nat) : ∀ (n p : Nat), (idsLoop bytes n p).length = n := by
  intro n
  induction n with
  | zero => intro p; rfl
  | succ m ih => intro p; simpa [idsLoop] using ih (p + 8)

theorem idsLoop_getD (bytes : List Nat) :
    ∀ (n p i : Nat), i < n →
      (idsLoop bytes n p).getD i 0 = readU64LE bytes (p + 8 * i) := by
  intro n
  induction n with
  | zero => intro p i h; omega
  | succ m ih =>
    intro p i h
    cases i with
    | zero => simp [idsLoop]
    | succ j =>
      have := ih (p + 8) j (by omega)
      simp only [idsLoop, List.getD_cons_succ]
      rw [this]
      congr 1
      omega

/-- C7: `IdsForAttr` returns exactly `ids.size / 8` identifiers, equal to the
consecutive 8-byte integers stored at `ids.offset`, in on-disk order. -/
theorem idsForAttr_spec (bytes : List Nat) (attr : FileAttr) :
    (IdsForAttr bytes attr).length = attr.ids.size / 8 ∧
    ∀ i, i < attr.ids.size / 8 →
      (IdsForAttr bytes attr).getD i 0 = readU64LE bytes (attr.ids.offset + 8 * i) :=
  ⟨idsLoop_length bytes _ _, fun i h => idsLoop_getD bytes _ _ i h⟩

/-- Witness for C7 at a concrete two-id table. -/
theorem idsForAttr_spec_witness :
    1 < (16 : Nat) / 8 ∧
    (IdsForAttr [1, 0, 0, 0, 0, 0, 0, 0, 2, 0, 0, 0, 0, 0, 0, 0]
        ⟨⟨0, false⟩, ⟨0, 16⟩⟩).getD 1 0 =
      readU64LE [1, 0, 0, 0, 0, 0, 0, 0, 2, 0, 0, 0, 0, 0, 0, 0] (0 + 8 * 1) :=
  ⟨by decide, (idsForAttr_spec _ _).2 1 (by decide)⟩

/-- C2: an empty attribute table (`attrs.size / attr_size = 0`) makes
`DataSection` fail with the structural FormatError, for any file contents,
decoder and fuel — rather than produce an empty record list. -/
theorem dataSection_no_attrs (bytes : List Nat) (header : FileHeader)
    (parseAttr : Nat → FileAttr) (decode : PerfEventAttr → Nat → Record) (fuel : Nat)
    (h : header.attrs.size / header.attr_size = 0) :
    DataSection bytes header parseAttr decode fuel = some (.error .formatError) := by
  unfold DataSection AttrSection
  rw [h]
  simp

/-- Witness for C2 at a concrete header with an empty attribute table. -/
theorem dataSection_no_attrs_witness :
    (⟨8, ⟨0, 0⟩, ⟨0, 0⟩, []⟩ : FileHeader).attrs.size /
        (⟨8, ⟨0, 0⟩, ⟨0, 0⟩, []⟩ : FileHeader).attr_size = 0 ∧
    DataSection [] ⟨8, ⟨0, 0⟩, ⟨0, 0⟩, []⟩ (fun _ => ⟨⟨0, false⟩, ⟨0, 0⟩⟩)
      (fun _ _ => ⟨0, 0, 0⟩) 3 = some (.error .formatError) :=
  ⟨by decide, dataSection_no_attrs _ _ _ _ 3 (by decide)⟩

/-- C6: `ReadCmdlineFeature` returns an empty sequence without error when
FEAT_CMDLINE is absent from the feature-section table; on a present section
encoding the two arguments "abc" and "de" it returns exactly those two
strings (as byte sequences [97,98,99] and [100,101]) in order. -/
theorem readCmdline_optional :
    (∀ (bytes : List Nat) (sections : List (Nat × SectionDesc)),
        sections.lookup FEAT_CMDLINE = none →
        ReadCmdlineFeature bytes sections = .ok []) ∧
    ReadCmdlineFeature
        [2, 0, 0, 0, 4, 0, 0, 0, 97, 98, 99, 0, 3, 0, 0, 0, 100, 101, 0]
        [(FEAT_CMDLINE, ⟨0, 19⟩)] = .ok [[97, 98, 99], [100, 101]] := by
  constructor
  · intro bytes sections h
    simp [ReadCmdlineFeature, h]
  · rfl

/-- Witness for C6: the absent-feature branch at a concrete empty table. -/
theorem readCmdline_optional_witness :
    ([] : List (Nat × SectionDesc)).lookup FEAT_CMDLINE = none ∧
    ReadCmdlineFeature [] [] = .ok [] :=
  ⟨by decide, readCmdline_optional.1 [] [] (by decide)⟩

/-- C8: when open succeeds (yielding a real descriptor) but the mapping step
fails, `CreateInstance` reports failure (no reader is returned) and the
already-opened descriptor is closed before the call returns. -/
theorem createInstance_mmap_fail (env : SysEnv) (fd : Int) (hfd : fd ≠ -1)
    (h : MmapFile env (mkReader fd) = none) :
    (CreateInstance env (some fd)).reader = none ∧
    SysCall.closeCall fd ∈ (CreateInstance env (some fd)).calls := by
  have h' : MmapFile env ⟨fd, false, 0⟩ = none := h
  simp [CreateInstance, h', destructReader, CloseReader, mkReader, hfd]

/-- Witness for C8: a concrete environment whose mmap fails. -/
theorem createInstance_mmap_fail_witness :
    ((3 : Int) ≠ -1 ∧ MmapFile ⟨some 10, false, true, true⟩ (mkReader 3) = none) ∧
    ((CreateInstance ⟨some 10, false, true, true⟩ (some 3)).reader = none ∧
     SysCall.closeCall 3 ∈ (CreateInstance ⟨some 10, false, true, true⟩ (some 3)).calls) :=
  ⟨⟨by decide, by rfl⟩, createInstance_mmap_fail _ 3 (by decide) (by rfl)⟩

theorem dataWalk_done {α : Type} (bytes : List Nat) (decode : Nat → α) (endPos pos : Nat)
    (h : ¬ pos < endPos) :
    ∀ fuel, dataWalk bytes decode endPos fuel pos = some [] := by
  intro fuel
  cases fuel <;> simp [dataWalk, h]

theorem dataWalk_step_fit {α : Type} (bytes : List Nat) (decode : Nat → α)
    (endPos pos fuel : Nat) (hlt : pos < endPos)
    (hfit : pos + readU16LE bytes (pos + 6) ≤ endPos) :
    dataWalk bytes decode endPos (fuel + 1) pos =
      (dataWalk bytes decode endPos fuel (pos + readU16LE bytes (pos + 6))).map
        (fun l => decode pos :: l) := by
  simp only [dataWalk, if_pos hlt]
  cases hw : dataWalk bytes decode endPos fuel (pos + readU16LE bytes (pos + 6)) with
  | none => simp
  | some l => simp [hfit]

theorem dataWalk_step_drop {α : Type} (bytes : List Nat) (decode : Nat → α)
    (endPos pos fuel : Nat) (hlt : pos < endPos)
    (hnofit : ¬ pos + readU16LE bytes (pos + 6) ≤ endPos) :
    dataWalk bytes decode endPos (fuel + 1) pos =
      dataWalk bytes decode endPos fuel (pos + readU16LE bytes (pos + 6)) := by
  simp only [dataWalk, if_pos hlt]
  cases hw : dataWalk bytes decode endPos fuel (pos + readU16LE bytes (pos + 6)) with
  | none => simp
  | some l => simp [hnofit]

theorem dataWalk_zero_size {α : Type} (bytes : List Nat) (decode : Nat → α)
    (endPos pos : Nat) (hlt : pos < endPos) (hz : readU16LE bytes (pos + 6) = 0) :
    ∀ fuel, dataWalk bytes decode endPos fuel pos = none := by
  intro fuel
  induction fuel with
  | zero => simp [dataWalk, hlt]
  | succ f ih =>
    simp only [dataWalk, if_pos hlt, hz, Nat.add_zero, ih]

theorem dataWalk_pos_sizes_terminate {α : Type} (bytes : List Nat) (decode : Nat → α)
    (endPos : Nat) :
    ∀ (fuel pos : Nat),
      (∀ q, pos ≤ q → q < endPos → 0 < readU16LE bytes (q + 6)) →
      endPos - pos ≤ fuel →
      (dataWalk bytes decode endPos fuel pos).isSome = true := by
  intro fuel
  induction fuel with
  | zero =>
    intro pos h hle
    have hnot : ¬ pos < endPos := by omega
    simp [dataWalk, hnot]
  | succ f ih =>
    intro pos h hle
    by_cases hlt : pos < endPos
    · have hsize : 0 < readU16LE bytes (pos + 6) := h pos le_rfl hlt
      have hrec := ih (pos + readU16LE bytes (pos + 6))
        (fun q hq1 hq2 => h q (by omega) hq2) (by omega)
      simp only [dataWalk, if_pos hlt]
      cases hw : dataWalk bytes decode endPos f (pos + readU16LE bytes (pos + 6)) with
      | none => rw [hw] at hrec; simp at hrec
      | some l => simp
    · simp [dataWalk, hlt]

/-- C9: the record-walking loop terminates on a region whose declared record
lengths are all strictly positive (the cursor strictly advances each
iteration, so `endPos - pos` fuel suffices), while the loop never exits when
the record at the cursor declares length zero (the cursor is left unchanged,
so no amount of fuel completes the walk). -/
theorem dataSection_walk_termination {α : Type} :
    (∀ (bytes : List Nat) (decode : Nat → α) (endPos pos fuel : Nat),
        (∀ q, pos ≤ q → q < endPos → 0 < readU16LE bytes (q + 6)) →
        endPos - pos ≤ fuel →
        (dataWalk bytes decode endPos fuel pos).isSome = true) ∧
    (∀ (bytes : List Nat) (decode : Nat → α) (endPos pos : Nat),
        pos < endPos → readU16LE bytes (pos + 6) = 0 →
        ∀ fuel, dataWalk bytes decode endPos fuel pos = none) :=
  ⟨fun bytes decode endPos pos fuel h hle =>
      dataWalk_pos_sizes_terminate bytes decode endPos fuel pos h hle,
   fun bytes decode endPos pos hlt hz => dataWalk_zero_size bytes decode endPos pos hlt hz⟩

/-- Witness for C9: a region of bytes 1 everywhere terminates; an all-zero
region diverges at any fuel. -/
theorem dataSection_walk_termination_witness :
    (dataWalk (List.replicate 24 1) (fun p => p) 2 2 0).isSome = true ∧
    dataWalk (List.replicate 8 0) (fun p => p) 8 3 0 = none :=
  ⟨dataSection_walk_termination.1 _ _ 2 0 2
      (by intro q h1 h2; interval_cases q <;> decide) (by omega),
   dataSection_walk_termination.2 _ _ 8 0 (by decide) (by decide) 3⟩

theorem recStarts_length : ∀ (sizes : List Nat) (start : Nat),
    (recStarts start sizes).length = sizes.length := by
  intro sizes
  induction sizes with
  | nil => intro start; rfl
  | cons s rest ih => intro start; simp [recStarts, ih]

theorem dataWalk_truncated {α : Type} (bytes : List Nat) (decode : Nat → α) (endPos : Nat) :
    ∀ (sizes : List Nat) (pos fuel lastSize : Nat),
      fitsChain bytes endPos pos sizes = true →
      pos + sizes.sum < endPos →
      readU16LE bytes (pos + sizes.sum + 6) = lastSize →
      endPos < pos + sizes.sum + lastSize →
      sizes.length + 2 ≤ fuel →
      dataWalk bytes decode endPos fuel pos = some ((recStarts pos sizes).map decode) := by
  intro sizes
  induction sizes with
  | nil =>
    intro pos fuel lastSize hchain hlt hread hover hfuel
    simp only [List.sum_nil, Nat.add_zero] at hlt hread hover
    obtain ⟨f, rfl⟩ : ∃ f, fuel = f + 1 := ⟨fuel - 1, by omega⟩
    rw [dataWalk_step_drop bytes decode endPos pos f hlt (by rw [hread]; omega)]
    rw [hread]
    rw [dataWalk_done bytes decode endPos (pos + lastSize) (by omega) f]
    simp [recStarts]
  | cons s rest ih =>
    intro pos fuel lastSize hchain hlt hread hover hfuel
    simp only [fitsChain, Bool.and_eq_true, decide_eq_true_eq] at hchain
    obtain ⟨⟨⟨hr, hs⟩, hfit⟩, hrest⟩ := hchain
    simp only [List.sum_cons] at hlt hread hover
    have e : pos + (s + rest.sum) = pos + s + rest.sum := by omega
    rw [e] at hlt hover
    have e6 : pos + (s + rest.sum) + 6 = pos + s + rest.sum + 6 := by omega
    rw [e6] at hread
    obtain ⟨f, rfl⟩ : ∃ f, fuel = f + 1 := ⟨fuel - 1, by omega⟩
    have hlt' : pos < endPos := by omega
    rw [dataWalk_step_fit bytes decode endPos pos f hlt' (by rw [hr]; exact hfit)]
    rw [hr]
    rw [ih (pos + s) f lastSize hrest hlt hread hover
      (by simp only [List.length_cons] at hfuel; omega)]
    simp [recStarts]

/-- C3: one walk step appends the decoded record (in encounter order) when
the declared length fits the remaining region and silently skips it (no
error) when it does not, advancing the cursor by the declared length in both
cases; consequently a region holding a chain of fitting records followed by
one whose declared length overruns the region end yields exactly one fewer
record than the number of length-prefixes present. -/
theorem dataSection_truncation {α : Type} :
    (∀ (bytes : List Nat) (decode : Nat → α) (endPos pos fuel : Nat),
        pos < endPos → pos + readU16LE bytes (pos + 6) ≤ endPos →
        dataWalk bytes decode endPos (fuel + 1) pos =
          (dataWalk bytes decode endPos fuel (pos + readU16LE bytes (pos + 6))).map
            (fun l => decode pos :: l)) ∧
    (∀ (bytes : List Nat) (decode : Nat → α) (endPos pos fuel : Nat),
        pos < endPos → ¬ pos + readU16LE bytes (pos + 6) ≤ endPos →
        dataWalk bytes decode endPos (fuel + 1) pos =
          dataWalk bytes decode endPos fuel (pos + readU16LE bytes (pos + 6))) ∧
    (∀ (bytes : List Nat) (decode : Nat → α) (endPos : Nat) (sizes : List Nat)
        (pos fuel lastSize : Nat),
        fitsChain bytes endPos pos sizes = true →
        pos + sizes.sum < endPos →
        readU16LE bytes (pos + sizes.sum + 6) = lastSize →
        endPos < pos + sizes.sum + lastSize →
        sizes.length + 2 ≤ fuel →
        dataWalk bytes decode endPos fuel pos = some ((recStarts pos sizes).map decode) ∧
        ((recStarts pos sizes).map decode).length = (sizes.length + 1) - 1) :=
  ⟨fun bytes decode endPos pos fuel hlt hfit =>
      dataWalk_step_fit bytes decode endPos pos fuel hlt hfit,
   fun bytes decode endPos pos fuel hlt hnofit =>
      dataWalk_step_drop bytes decode endPos pos fuel hlt hnofit,
   fun bytes decode endPos sizes pos fuel lastSize hchain hlt hread hover hfuel =>
     ⟨dataWalk_truncated bytes decode endPos sizes pos fuel lastSize
         hchain hlt hread hover hfuel,
      by simp [recStarts_length]⟩⟩

/-- Witness for C3: a 16-byte region holding a fitting 8-byte record followed
by a record declaring 12 bytes; the walk yields one record, one fewer than
the two length-prefixes present. -/
theorem dataSection_truncation_witness :
    (fitsChain [0, 0, 0, 0, 0, 0, 8, 0, 0, 0, 0, 0, 0, 0, 12, 0] 16 0 [8] = true ∧
     (0 : Nat) + [8].sum < 16 ∧
     readU16LE [0, 0, 0, 0, 0, 0, 8, 0, 0, 0, 0, 0, 0, 0, 12, 0] (0 + [8].sum + 6) = 12 ∧
     16 < (0 : Nat) + [8].sum + 12 ∧ [8].length + 2 ≤ 3) ∧
    (dataWalk [0, 0, 0, 0, 0, 0, 8, 0, 0, 0, 0, 0, 0, 0, 12, 0] (fun p => p) 16 3 0 =
        some ((recStarts 0 [8]).map (fun p => p)) ∧
     ((recStarts 0 [8]).map (fun p : Nat => p)).length = ([8].length + 1) - 1) :=
  ⟨⟨by decide, by decide, by decide, by decide, by decide⟩,
   dataSection_truncation.2.2 _ _ 16 [8] 0 3 12
     (by decide) (by decide) (by decide) (by decide) (by decide)⟩

theorem cmdlineLoop_fits_ok (bytes : List Nat) :
    ∀ (count p endPos : Nat), cmdlineFits bytes p endPos count = true →
      ∃ l, cmdlineLoop bytes p endPos count = .ok l ∧ l.length = count := by
  intro count
  induction count with
  | zero => intro p endPos _; exact ⟨[], rfl, rfl⟩
  | succ n ih =>
    intro p endPos h
    simp only [cmdlineFits, Bool.and_eq_true, decide_eq_true_eq] at h
    obtain ⟨hfit, hrest⟩ := h
    obtain ⟨l, hl, hlen⟩ := ih (p + 4 + readU32LE bytes p) endPos hrest
    refine ⟨cStringAt bytes (p + 4) :: l, ?_, by simp [hlen]⟩
    simp only [cmdlineLoop, if_pos hfit, hl]

theorem cmdlineLoop_not_fits (bytes : List Nat) :
    ∀ (count p endPos : Nat), cmdlineFits bytes p endPos count = false →
      cmdlineLoop bytes p endPos count = .error .formatError := by
  intro count
  induction count with
  | zero => intro p endPos h; simp [cmdlineFits] at h
  | succ n ih =>
    intro p endPos h
    by_cases hfit : p + 4 + readU32LE bytes p ≤ endPos
    · have hrest : cmdlineFits bytes (p + 4 + readU32LE bytes p) endPos n = false := by
        simpa [cmdlineFits, hfit] using h
      simp only [cmdlineLoop, if_pos hfit, ih (p + 4 + readU32LE bytes p) endPos hrest]
    · simp only [cmdlineLoop, if_neg hfit]

/-- C5: on a present command-line section, `ReadCmdlineFeature` succeeds —
returning exactly the declared number of arguments, with no constraint that
the final cursor reach the section end — precisely when the argument-count
read and every (length, argument-bytes) read stay within the section's end;
any violating read makes the call fail with FormatError. -/
theorem readCmdline_bounds (bytes : List Nat) (sections : List (Nat × SectionDesc))
    (sec : SectionDesc) (h : sections.lookup FEAT_CMDLINE = some sec) :
    (4 ≤ sec.size ∧
        cmdlineFits bytes (sec.offset + 4) (sec.offset + sec.size)
          (readU32LE bytes sec.offset) = true →
      ∃ l, ReadCmdlineFeature bytes sections = .ok l ∧
        l.length = readU32LE bytes sec.offset) ∧
    (¬ (4 ≤ sec.size ∧
        cmdlineFits bytes (sec.offset + 4) (sec.offset + sec.size)
          (readU32LE bytes sec.offset) = true) →
      ReadCmdlineFeature bytes sections = .error .formatError) := by
  constructor
  · rintro ⟨h4, hfits⟩
    simp only [ReadCmdlineFeature, h]
    rw [if_pos (by omega)]
    exact cmdlineLoop_fits_ok bytes _ _ _ hfits
  · intro hn
    simp only [ReadCmdlineFeature, h]
    by_cases h4 : sec.offset + 4 ≤ sec.offset + sec.size
    · rw [if_pos h4]
      apply cmdlineLoop_not_fits
      have hne : ¬ cmdlineFits bytes (sec.offset + 4) (sec.offset + sec.size)
          (readU32LE bytes sec.offset) = true := fun hf => hn ⟨by omega, hf⟩
      exact Bool.eq_false_iff.mpr hne
    · rw [if_neg h4]

/-- Witness for C5: a present section with one argument and one trailing
byte past the last argument; all reads fit, so the call succeeds with
exactly the declared count despite the unread trailing byte. -/
theorem readCmdline_bounds_witness :
    ([(FEAT_CMDLINE, (⟨0, 11⟩ : SectionDesc))].lookup FEAT_CMDLINE = some ⟨0, 11⟩ ∧
     4 ≤ (11 : Nat) ∧
     cmdlineFits [1, 0, 0, 0, 2, 0, 0, 0, 65, 0, 99] (0 + 4) (0 + 11)
       (readU32LE [1, 0, 0, 0, 2, 0, 0, 0, 65, 0, 99] 0) = true) ∧
    (∃ l, ReadCmdlineFeature [1, 0, 0, 0, 2, 0, 0, 0, 65, 0, 99]
        [(FEAT_CMDLINE, ⟨0, 11⟩)] = .ok l ∧
      l.length = readU32LE [1, 0, 0, 0, 2, 0, 0, 0, 65, 0, 99] 0) :=
  ⟨⟨by decide, by decide, by decide⟩,
   (readCmdline_bounds _ _ ⟨0, 11⟩ (by decide)).1 ⟨by decide, by decide⟩⟩

theorem isRecordHappensBefore_iff (r1 r2 : Record) :
    IsRecordHappensBefore r1 r2 = true ↔
      (recordTime r1 < recordTime r2 ∨
       (recordTime r1 = recordTime r2 ∧ r1.type ≠ PERF_RECORD_SAMPLE ∧
        r2.type = PERF_RECORD_SAMPLE)) := by
  unfold IsRecordHappensBefore recordTime
  by_cases h1 : r1.type = PERF_RECORD_SAMPLE <;>
    by_cases h2 : r2.type = PERF_RECORD_SAMPLE <;>
      simp [h1, h2] <;> omega

theorem isRecordHappensBefore_rkey (r1 r2 : Record) :
    IsRecordHappensBefore r1 r2 = true ↔ rkey r1 < rkey r2 := by
  rw [isRecordHappensBefore_iff]
  unfold rkey recordTime
  by_cases h1 : r1.type = PERF_RECORD_SAMPLE <;>
    by_cases h2 : r2.type = PERF_RECORD_SAMPLE <;>
      simp [h1, h2] <;> omega

theorem mergeLe_iff (r1 r2 : Record) :
    (! IsRecordHappensBefore r2 r1) = true ↔ rkey r1 ≤ rkey r2 := by
  have h := isRecordHappensBefore_rkey r2 r1
  cases hb : IsRecordHappensBefore r2 r1 <;> rw [hb] at h <;> simp_all

/-- C1: `DataSection` applies its reordering pass exactly when the first
attribute has PERF_SAMPLE_TIME set in `sample_type` and `sample_id_all`:
otherwise the materialized sequence is returned in encounter order, and
when both hold the output is a permutation of the input ordered by
`IsRecordHappensBefore`, whose exact contract is: r1 sorts strictly before
r2 when its timestamp (sample payload time for samples, sample_id suffix
time otherwise) is strictly smaller, or on equal timestamps when r1 is a
non-sample record and r2 a sample record; equal-timestamp records of the
same kind are unordered by the comparator. -/
theorem dataSectionOrder_spec :
    (∀ r1 r2 : Record,
        IsRecordHappensBefore r1 r2 = true ↔
          (recordTime r1 < recordTime r2 ∨
           (recordTime r1 = recordTime r2 ∧ r1.type ≠ PERF_RECORD_SAMPLE ∧
            r2.type = PERF_RECORD_SAMPLE))) ∧
    (∀ (attr : PerfEventAttr) (records : List Record),
        ¬ (attr.sample_type &&& PERF_SAMPLE_TIME ≠ 0 ∧ attr.sample_id_all = true) →
        dataSectionOrder attr records = records) ∧
    (∀ (attr : PerfEventAttr) (records : List Record),
        attr.sample_type &&& PERF_SAMPLE_TIME ≠ 0 → attr.sample_id_all = true →
        (dataSectionOrder attr records).Perm records ∧
        (dataSectionOrder attr records).Pairwise
          (fun a b => IsRecordHappensBefore b a = false)) := by
  refine ⟨isRecordHappensBefore_iff, ?_, ?_⟩
  · intro attr records hn
    unfold dataSectionOrder
    rw [if_neg hn]
  · intro attr records h1 h2
    unfold dataSectionOrder
    rw [if_pos ⟨h1, h2⟩]
    refine ⟨List.mergeSort_perm records _, ?_⟩
    have hsorted := @List.sorted_mergeSort Record
      (fun r1 r2 => ! IsRecordHappensBefore r2 r1)
      (fun a b c hab hbc => by
        rw [mergeLe_iff] at hab hbc ⊢; omega)
      (fun a b => by
        simp only [Bool.or_eq_true, mergeLe_iff]; omega)
      records
    exact hsorted.imp (fun hab => by
      rwa [Bool.not_eq_true'] at hab)

/-- Witness for C1: the ordering pass leaves a list unchanged under an
attribute without the two flags, and under an attribute with both flags
produces an `IsRecordHappensBefore`-ordered permutation. -/
theorem dataSectionOrder_spec_witness :
    (¬ (((⟨0, false⟩ : PerfEventAttr).sample_type &&& PERF_SAMPLE_TIME ≠ 0) ∧
        (⟨0, false⟩ : PerfEventAttr).sample_id_all = true) ∧
     dataSectionOrder ⟨0, false⟩ [⟨9, 5, 0⟩] = [⟨9, 5, 0⟩]) ∧
    ((⟨4, true⟩ : PerfEventAttr).sample_type &&& PERF_SAMPLE_TIME ≠ 0 ∧
     (dataSectionOrder ⟨4, true⟩ [⟨9, 5, 0⟩, ⟨0, 0, 3⟩]).Perm [⟨9, 5, 0⟩, ⟨0, 0, 3⟩] ∧
     (dataSectionOrder ⟨4, true⟩ [⟨9, 5, 0⟩, ⟨0, 0, 3⟩]).Pairwise
       (fun a b => IsRecordHappensBefore b a = false)) :=
  ⟨⟨by decide, dataSectionOrder_spec.2.1 _ _ (by decide)⟩,
   ⟨by decide, (dataSectionOrder_spec.2.2 ⟨4, true⟩ _ (by decide) (by decide)).1,
    (dataSectionOrder_spec.2.2 ⟨4, true⟩ _ (by decide) (by decide)).2⟩⟩

theorem mem_featureBitsLoop : ∀ (l : List Nat) (i f : Nat),
    f ∈ featureBitsLoop l i ↔
      (8 * i ≤ f ∧ f / 8 - i < l.length ∧
       l.getD (f / 8 - i) 0 &&& (1 <<< (f % 8)) ≠ 0) := by
  intro l
  induction l with
  | nil => intro i f; simp [featureBitsLoop]
  | cons b rest ih =>
    intro i f
    simp only [featureBitsLoop, List.mem_append, List.mem_filterMap, List.mem_range, ih]
    constructor
    · rintro (⟨j, hj, hval⟩ | ⟨h1, h2, h3⟩)
      · by_cases hb : b &&& (1 <<< j) ≠ 0
        · rw [if_pos hb] at hval
          rw [Option.some.injEq] at hval
          subst hval
          have hdiv : (i * 8 + j) / 8 = i := by omega
          have hmod : (i * 8 + j) % 8 = j := by omega
          refine ⟨by omega, ?_, ?_⟩
          · simp only [List.length_cons]; omega
          · rw [hdiv, hmod, Nat.sub_self, List.getD_cons_zero]
            exact hb
        · rw [if_neg hb] at hval; cases hval
      · have hge : i + 1 ≤ f / 8 := by omega
        refine ⟨by omega, ?_, ?_⟩
        · simp only [List.length_cons] at h2 ⊢; omega
        · have e : f / 8 - i = (f / 8 - (i + 1)) + 1 := by omega
          rw [e, List.getD_cons_succ]
          exact h3
    · rintro ⟨h1, h2, h3⟩
      by_cases hdiv : f / 8 = i
      · left
        have h0 : f / 8 - i = 0 := by omega
        rw [h0, List.getD_cons_zero] at h3
        refine ⟨f % 8, by omega, ?_⟩
        rw [if_pos h3, Option.some.injEq]
        omega
      · right
        have hgt : i + 1 ≤ f / 8 := by omega
        have e : f / 8 - i = (f / 8 - (i + 1)) + 1 := by omega
        rw [e, List.getD_cons_succ] at h3
        refine ⟨by omega, ?_, h3⟩
        simp only [List.length_cons] at h2; omega

theorem featureBitsLoop_pairwise : ∀ (l : List Nat) (i : Nat),
    (featureBitsLoop l i).Pairwise (· < ·) := by
  intro l
  induction l with
  | nil => intro i; simp [featureBitsLoop]
  | cons b rest ih =>
    intro i
    rw [featureBitsLoop, List.pairwise_append]
    refine ⟨?_, ih (i + 1), ?_⟩
    · rw [List.pairwise_filterMap]
      refine (List.pairwise_lt_range 8).imp ?_
      intro j1 j2 hlt x hx y hy
      by_cases hb1 : b &&& (1 <<< j1) ≠ 0
      · rw [if_pos hb1] at hx
        by_cases hb2 : b &&& (1 <<< j2) ≠ 0
        · rw [if_pos hb2] at hy
          cases hx; cases hy; omega
        · rw [if_neg hb2] at hy; cases hy
      · rw [if_neg hb1] at hx; cases hx
    · intro a ha c hc
      simp only [List.mem_filterMap, List.mem_range] at ha
      obtain ⟨j, hj, hval⟩ := ha
      by_cases hb : b &&& (1 <<< j) ≠ 0
      · rw [if_pos hb, Option.some.injEq] at hval
        subst hval
        have := (mem_featureBitsLoop rest (i + 1) c).mp hc
        omega
      · rw [if_neg hb] at hval; cases hval

theorem featureDescLoop_eq_zip (bytes : List Nat) :
    ∀ (fs : List Nat) (pos : Nat),
      featureDescLoop bytes fs pos =
        fs.zip ((List.range fs.length).map
          fun i => readSectionDesc bytes (pos + 16 * i)) := by
  intro fs
  induction fs with
  | nil => intro pos; rfl
  | cons f rest ih =>
    intro pos
    rw [featureDescLoop, ih (pos + 16)]
    simp only [List.length_cons, List.range_succ_eq_map, List.map_cons, List.map_map,
      List.zip_cons_cons, Nat.mul_zero, Nat.add_zero]
    congr 2
    apply List.map_congr_left
    intro i _
    simp only [Function.comp_apply]
    congr 1
    omega

/-- C4: the feature-section table's keys are exactly the ids
`byte_index * 8 + bit_index` of the set bits of the header bitmap, the ids
are discovered in strictly increasing (byte, bit) order, and the i-th
discovered id is associated with the i-th SectionDesc read consecutively
(16 bytes apart) from `data.offset + data.size`; on the fixture with bits 2
and 5 set and descriptor table [{100,20},{200,8}], feature 2 resolves to
{100,20} and feature 5 to {200,8}. -/
theorem featureSections_spec :
    (∀ (features : List Nat) (f : Nat),
        f ∈ featureIds features ↔
          (f / 8 < features.length ∧
           features.getD (f / 8) 0 &&& (1 <<< (f % 8)) ≠ 0)) ∧
    (∀ features : List Nat, (featureIds features).Pairwise (· < ·)) ∧
    (∀ (bytes : List Nat) (header : FileHeader),
        FeatureSectionDescriptors bytes header =
          (featureIds header.features).zip
            ((List.range (featureIds header.features).length).map
              fun i => readSectionDesc bytes
                (header.data.offset + header.data.size + 16 * i))) ∧
    ((FeatureSectionDescriptors
        [100, 0, 0, 0, 0, 0, 0, 0, 20, 0, 0, 0, 0, 0, 0, 0,
         200, 0, 0, 0, 0, 0, 0, 0, 8, 0, 0, 0, 0, 0, 0, 0]
        ⟨0, ⟨0, 0⟩, ⟨0, 0⟩, [36]⟩).lookup 2 = some ⟨100, 20⟩ ∧
     (FeatureSectionDescriptors
        [100, 0, 0, 0, 0, 0, 0, 0, 20, 0, 0, 0, 0, 0, 0, 0,
         200, 0, 0, 0, 0, 0, 0, 0, 8, 0, 0, 0, 0, 0, 0, 0]
        ⟨0, ⟨0, 0⟩, ⟨0, 0⟩, [36]⟩).lookup 5 = some ⟨200, 8⟩) := by
  refine ⟨?_, ?_, ?_, by decide, by decide⟩
  · intro features f
    have := mem_featureBitsLoop features 0 f
    simpa [featureIds] using this
  · intro features
    exact featureBitsLoop_pairwise features 0
  · intro bytes header
    exact featureDescLoop_eq_zip bytes (featureIds header.features)
      (header.data.offset + header.data.size)

/-- C10: after `Close` returns — whatever the outcomes of munmap and close —
the stored descriptor field is -1, so a destructor running afterwards issues
no further munmap or close call. -/
theorem close_sets_fd_destructor_noop (env env' : SysEnv) (r : ReaderState) :
    ((CloseReader env r).1).record_fd = -1 ∧
    destructReader env' (CloseReader env r).1 = [] := by
  refine ⟨rfl, ?_⟩
  simp [destructReader, CloseReader]

end RecordFile
